import Mathlib

/-!
Verification of the CryoCanvas incremental fit/predict orchestration
(`src/cryocanvas/app.py`) against its natural-language specification.

The embedding models numpy arrays as flat C-order buffers (`List`) together
with their shape, integer voxel labels as `Int` (the zarr arrays have dtype
i4), and real-valued features as `ℚ`.  The fitted scikit-learn / XGBoost
classifier is opaque in the source, so it is modelled as a `Model`: the list
of class values it was fit on together with an arbitrary prediction function
whose outputs are guaranteed to lie among those classes (the classifier
contract).  Everything downstream of that boundary is translated directly
from the source.
-/

namespace CryoCanvas

/-! ## numpy-style array model -/

/-- numpy `reshape(-1, F)` on a flat C-order buffer: group into rows of
length `F` (row `i` is the slice `[i*F, (i+1)*F)` of the buffer). -/
def chunkRows (F : Nat) (data : List ℚ) : List (List ℚ) :=
  (List.range (data.length / F)).map (fun i => (data.drop (i * F)).take F)

/-- numpy `np.transpose` on a 3D C-order buffer of shape `(Z, Y, X)`:
the result has shape `(X, Y, Z)` and its element at multi-index
`(x, y, z)` (flat position `x*(Y*Z) + (y*Z + z)`) is the input element at
`(z, y, x)` (flat position `z*(Y*X) + (y*X + x)`). -/
def transpose3 (Z Y X : Nat) (d : List Int) : List Int :=
  List.ofFn (fun p : Fin (X * (Y * Z)) =>
    let r := (p : Nat) % (Y * Z)
    d.getD ((r % Z) * (Y * X) + ((r / Z) * X + (p : Nat) / (Y * Z))) 0)

/-- A 3D integer array: shape `(s1, s2, s3)` plus flat C-order data. -/
structure Arr3 where
  s1 : Nat
  s2 : Nat
  s3 : Nat
  data : List Int
deriving DecidableEq

/-- A 4D feature array: spatial shape `(s1, s2, s3)` and feature depth `F`,
with flat C-order data. -/
structure Arr4 where
  s1 : Nat
  s2 : Nat
  s3 : Nat
  F : Nat
  data : List ℚ
deriving DecidableEq

/-- `np.transpose` of a 3D array: shape reversed, buffer reordered. -/
def transposeArr (a : Arr3) : Arr3 :=
  ⟨a.s3, a.s2, a.s1, transpose3 a.s1 a.s2 a.s3 a.data⟩

/-! ## The opaque fitted classifier

`fit_model` hands the filtered training data to scikit-learn / XGBoost and
gets back an opaque fitted object.  The only contract the downstream code
relies on is that `clf.predict` maps each feature row to one of the class
values the classifier was fit on (`clf.classes_`). -/

structure Model where
  classes : List Int
  predFn : List ℚ → Int
  pred_mem : ∀ f, predFn f ∈ classes

/-- The label values `predict` can emit: each fitted class shifted by the
`+ 1` of `predict` (background 0 is reserved). -/
def classesPlusOne (m : Model) : List Int := m.classes.map (fun c => c + 1)

/-! ## `predict` (app.py lines 368-376) -/

/-- The flat per-voxel output of `future.predict_segmenter(...) + 1`:
the model is applied to each row of `features.reshape(-1, F)` and the
0-based class index is shifted by one. -/
def predictedFlat (m : Model) (f : Arr4) : List Int :=
  (chunkRows f.F f.data).map (fun r => m.predFn r + 1)

/-- `predict`: reshape the flat predictions to the spatial shape
`features.shape[:-1]` and return `np.transpose` of the result. -/
def predict (m : Model) (f : Arr4) : Arr3 :=
  transposeArr ⟨f.s1, f.s2, f.s3, predictedFlat m f⟩

/-- `on_prediction` (app.py lines 299-306): the completion callback stores
`np.transpose(prediction)` into the prediction layer. -/
def on_prediction_stored (prediction : Arr3) : Arr3 :=
  transposeArr prediction

/-! ## `fit_model` (app.py lines 314-366) -/

/-- The boolean mask `labels > 0` over the flattened labels. -/
def validLabels (labels : List Int) : List Bool :=
  labels.map (fun l => decide (0 < l))

/-- numpy boolean-mask indexing `xs[mask]`: keep the entries whose mask
bit is set. -/
def boolIndex {α : Type} (mask : List Bool) (xs : List α) : List α :=
  ((mask.zip xs).filter (fun p => p.1)).map (fun p => p.2)

/-- `reshaped_features[valid_labels, :]`. -/
def filtered_features (labels : List Int) (features : List (List ℚ)) :
    List (List ℚ) :=
  boolIndex (validLabels labels) features

/-- `labels[valid_labels] - 1`. -/
def filtered_labels (labels : List Int) : List Int :=
  (boolIndex (validLabels labels) labels).map (fun l => l - 1)

/-- `np.unique`: the distinct values in sorted order. -/
def uniqueSorted (l : List Int) : List Int :=
  l.dedup.insertionSort (fun a b => a ≤ b)

/-- `sklearn.utils.class_weight.compute_class_weight("balanced", ...)`
encodes `y` by the index of each value in the sorted unique class list and
divides `len(y)` by `n_classes * bincount(y_ind)`; `weight_dict` then maps
each class value to its weight. -/
def weightDict (y : List Int) (c : Int) : ℚ :=
  let u := uniqueSorted y
  (y.length : ℚ) /
    ((u.length : ℚ) * (((y.map (fun v => u.indexOf v)).count (u.indexOf c) : Nat) : ℚ))

/-- `np.vectorize(weight_dict.get)(filtered_labels)`. -/
def sample_weights (y : List Int) : List ℚ :=
  y.map (weightDict y)

/-- Sum over the fitted classes of `weight(c) * count(c)` (the quantity the
spec's normalization round trip is about). -/
def balancedTotal (y : List Int) : ℚ :=
  ((uniqueSorted y).map (fun c => weightDict y c * ((y.count c : Nat) : ℚ))).sum

/-- `fit_model`: flatten, filter to labelled voxels, shift labels by -1,
skip (return `None`) if nothing is labelled, compute balanced class
weights, then fit the chosen classifier.  The two library trainers are
opaque; they are passed in as functions receiving exactly the arguments
the source passes (`class_weight` dict for Random Forest, per-sample
weights for XGBoost).  An unsupported model type raises. -/
def fit_model (labels : List Int) (features : List (List ℚ))
    (model_type : String)
    (fitRF : List (List ℚ) → List Int → (Int → ℚ) → Model)
    (fitXGB : List (List ℚ) → List Int → List ℚ → Model) :
    Except String (Option Model) :=
  let fl := filtered_labels labels
  let ff := filtered_features labels features
  if fl.length = 0 then Except.ok none
  else if model_type = "Random Forest" then
    Except.ok (some (fitRF ff fl (weightDict fl)))
  else if model_type = "XGBoost" then
    Except.ok (some (fitXGB ff fl (sample_weights fl)))
  else Except.error ("Unsupported model type: " ++ model_type)

/-! ## Orchestration callbacks (app.py lines 167-199 and 283-297) -/

/-- `on_model_fit`: `self.model = task.result()` unconditionally, then a
prediction job is submitted iff live-prediction is on and the stored model
is truthy (`None` is falsy).  Returns the new model handle and whether a
prediction was submitted.  The previous handle is overwritten, not
consulted. -/
def on_model_fit (_prevModel : Option Model) (result : Option Model)
    (live_prediction : Bool) : Option Model × Bool :=
  (result, live_prediction && result.isSome)

/-- Python semantics of `training_labels.shape == 0`: the left operand is
a plain tuple, so `==` against an integer is always `False` (no numpy
broadcasting happens). -/
def pyTupleEqInt (_shape : List Nat) (_n : Nat) : Bool := false

/-- `np.any` of a scalar boolean. -/
def npAnyScalar (b : Bool) : Bool := b

structure DataChangeResult where
  statusText : Option String
  fitSubmitted : Bool
deriving DecidableEq

/-- `on_data_change` decision logic (app.py lines 184-199): if
`np.any(training_labels.shape == 0)` skip, elif live-fit set the status
text and submit the fit job, else do nothing. -/
def on_data_change (trainingLabelsShape : List Nat) (live_fit : Bool) :
    DataChangeResult :=
  if npAnyScalar (pyTupleEqInt trainingLabelsShape 0) then ⟨none, false⟩
  else if live_fit then ⟨some "Fitting model ...", true⟩
  else ⟨none, false⟩

/-! ## `_get_features` (app.py lines 264-281) -/

/-- A per-axis index range (a Python `slice(lo, hi)`). -/
structure SliceRange where
  lo : Nat
  hi : Nat
deriving DecidableEq

/-- A spatial mask: one range per axis. -/
structure Mask3 where
  a1 : SliceRange
  a2 : SliceRange
  a3 : SliceRange
deriving DecidableEq

def rangeSlice (s : SliceRange) : List Nat :=
  (List.range (s.hi - s.lo)).map (fun i => s.lo + i)

/-- The voxels selected by a mask, in C order. -/
def maskVoxels (m : Mask3) : List (Nat × Nat × Nat) :=
  (rangeSlice m.a1).flatMap (fun z =>
    (rangeSlice m.a2).flatMap (fun y =>
      (rangeSlice m.a3).map (fun x => (z, y, x))))

/-- A stored feature set: feature depth `F` and the per-voxel feature
vector, which always has length `F` (the arrays have shape
`(Z, Y, X, F)`). -/
structure FeatSet where
  F : Nat
  vec : Nat → Nat → Nat → List ℚ
  hlen : ∀ z y x, (vec z y x).length = F

/-- `feature_data[mask_idx].reshape(-1, F)`: one row per masked voxel. -/
def flatRows (fs : FeatSet) (m : Mask3) : List (List ℚ) :=
  (maskVoxels m).map (fun v => fs.vec v.1 v.2.1 v.2.2)

/-- `np.concatenate(features, axis=1)` on matrices with equal row count:
rowwise concatenation. -/
def concatAxis1 (mats : List (List (List ℚ))) : List (List ℚ) :=
  match mats with
  | [] => []
  | mat :: rest => rest.foldl (fun acc mm => acc.zipWith (fun r s => r ++ s) mm) mat

/-- `_get_features`: collect the selected feature sets (skimage first when
enabled, then tomotwin), raise if none is selected, otherwise concatenate
along the feature axis. -/
def get_features (use_skimage use_tomotwin : Bool) (sk tt : FeatSet)
    (m : Mask3) : Except String (List (List ℚ)) :=
  let mats := (if use_skimage then [flatRows sk m] else []) ++
              (if use_tomotwin then [flatRows tt m] else [])
  if mats.length = 0 then Except.error "No features selected for computation."
  else Except.ok (concatAxis1 mats)

/-! ## `_paint_background_thread` (app.py lines 476-509) -/

/-- `np.percentile(a, q)` with the default linear interpolation: the value
at virtual index `(n - 1) * q / 100` of the sorted data, interpolating
between the two neighbouring order statistics. -/
def npPercentile (l : List ℚ) (q : ℚ) : ℚ :=
  let s := l.insertionSort (fun a b => a ≤ b)
  let h : ℚ := ((l.length : ℚ) - 1) * q / 100
  let lo := h.floor.toNat
  let hi := h.ceil.toNat
  let slo := s.getD lo 0
  let shi := s.getD hi 0
  slo + (h - (h.floor : ℚ)) * (shi - slo)

/-- `background_mask = distances < threshold` (elementwise). -/
def background_mask (distances : List ℚ) (threshold : ℚ) : List Bool :=
  distances.map (fun d => decide (d < threshold))

/-- `np.where(mask)` on a flat boolean mask: the indices whose bit is set,
in order. -/
def whereIdx (mask : List Bool) : List Nat :=
  (List.range mask.length).filter (fun i => mask.getD i false)

/-- The write loop: `painting_data[indices[...][i]] = 1` for each selected
index in turn. -/
def paintLoop (painting : List Int) (idxs : List Nat) : List Int :=
  idxs.foldl (fun acc i => acc.set i 1) painting

/-- `_paint_background_thread` acting on the painting buffer: threshold at
the 1st percentile of the distances, mask strictly below it, and write
label 1 at each masked voxel.  The distances are the Euclidean
distances-from-median the thread computes from the tomotwin features; they
are taken here as the function's input (their computation is
floating-point library code outside the orchestration being verified). -/
def paint_background (distances : List ℚ) (painting : List Int) : List Int :=
  paintLoop painting (whereIdx (background_mask distances (npPercentile distances 1)))

/-! ## Spec-side reference definitions (for refinement comparisons)

These two follow the specification's words ("Keep only voxels with
label > 0", "Re-index kept labels by subtracting 1"), to be compared
against the boolean-mask pipeline embedded from the source. -/

/-- Spec description of the training pairs: exactly the (label, feature)
pairs at voxels with positive label, with the label shifted by -1. -/
def specTrainingPairs (labels : List Int) (features : List (List ℚ)) :
    List (Int × List ℚ) :=
  ((labels.zip features).filter (fun p => decide (0 < p.1))).map
    (fun p => (p.1 - 1, p.2))

/-- Spec description of the filtered labels: positive labels, shifted
by -1. -/
def specFilteredLabels (labels : List Int) : List Int :=
  (labels.filter (fun l => decide (0 < l))).map (fun l => l - 1)

/-! ## Concrete fixtures used by witnesses and counterexamples -/

/-- A model fit on the single class 0. -/
def trivialModel : Model := ⟨[0], fun _ => 0, fun _ => by simp⟩

/-- A model fit on the classes `{0, 4}` (the filtered classes arising from
painted labels `{1, 5}`) that answers class 4 somewhere. -/
def gapModel : Model := ⟨[0, 4], fun _ => 4, fun _ => by simp⟩

/-- Stand-in for the opaque Random Forest trainer. -/
def constTrainRF : List (List ℚ) → List Int → (Int → ℚ) → Model :=
  fun _ _ _ => trivialModel

/-- Stand-in for the opaque XGBoost trainer. -/
def constTrainXGB : List (List ℚ) → List Int → List ℚ → Model :=
  fun _ _ _ => trivialModel

/-- A one-voxel feature array (shape `(1,1,1,1)`). -/
def fOneVoxel : Arr4 := ⟨1, 1, 1, 1, [0]⟩

/-- A feature array of spatial shape `(1,2,3)` with `F = 1`. -/
def fShape123 : Arr4 := ⟨1, 2, 3, 1, [0, 0, 0, 0, 0, 0]⟩

/-- A feature array of spatial shape `(1,1,2)` with `F = 1`. -/
def fShape112 : Arr4 := ⟨1, 1, 2, 1, [0, 1]⟩

/-- A feature array of spatial shape `(2,1,3)` with `F = 1`. -/
def fShape213 : Arr4 := ⟨2, 1, 3, 1, [0, 1, 2, 3, 4, 5]⟩

/-- A feature set of depth 8 (the skimage features of the spec's
scenario). -/
def skEx : FeatSet := ⟨8, fun _ _ _ => List.replicate 8 0, fun _ _ _ => by simp⟩

/-- A feature set of depth 32 (the tomotwin features of the spec's
scenario). -/
def ttEx : FeatSet := ⟨32, fun _ _ _ => List.replicate 32 0, fun _ _ _ => by simp⟩

/-- The full mask over a volume of shape `(4, 10, 10)`. -/
def maskEx : Mask3 := ⟨⟨0, 4⟩, ⟨0, 10⟩, ⟨0, 10⟩⟩

/-- A one-voxel mask. -/
def maskSmall : Mask3 := ⟨⟨0, 1⟩, ⟨0, 1⟩, ⟨0, 1⟩⟩

/-! ## Index arithmetic and transpose lemmas -/

theorem mixed_lt {a A b B : Nat} (ha : a < A) (hb : b < B) :
    a * B + b < A * B := by
  have h1 : a * B + b < (a + 1) * B := by
    have h2 : (a + 1) * B = a * B + B := by ring
    omega
  exact lt_of_lt_of_le h1 (Nat.mul_le_mul_right B ha)

theorem decode_div {a b B : Nat} (hb : b < B) : (a * B + b) / B = a := by
  have hB : 0 < B := Nat.lt_of_le_of_lt (Nat.zero_le b) hb
  rw [Nat.mul_comm a B, Nat.mul_add_div hB, Nat.div_eq_of_lt hb, Nat.add_zero]

theorem decode_mod {a b B : Nat} (hb : b < B) : (a * B + b) % B = b := by
  rw [Nat.mul_comm a B, Nat.mul_add_mod, Nat.mod_eq_of_lt hb]

theorem pos_right_of_mul_pos {m n : Nat} (h : 0 < m * n) : 0 < n := by
  rcases Nat.eq_zero_or_pos n with h0 | h0
  · subst h0; simp at h
  · exact h0

theorem transpose3_length (Z Y X : Nat) (d : List Int) :
    (transpose3 Z Y X d).length = X * (Y * Z) := by
  simp [transpose3]

theorem transpose3_getD (Z Y X : Nat) (d : List Int) {x y z : Nat}
    (hx : x < X) (hy : y < Y) (hz : z < Z) :
    (transpose3 Z Y X d).getD (x * (Y * Z) + (y * Z + z)) 0
      = d.getD (z * (Y * X) + (y * X + x)) 0 := by
  have hyz : y * Z + z < Y * Z := mixed_lt hy hz
  have hidx : x * (Y * Z) + (y * Z + z) < X * (Y * Z) := mixed_lt hx hyz
  have hlen : x * (Y * Z) + (y * Z + z) < (transpose3 Z Y X d).length := by
    rw [transpose3_length]; exact hidx
  rw [List.getD_eq_getElem _ _ hlen]
  unfold transpose3
  rw [List.getElem_ofFn]
  simp only
  rw [decode_mod hyz, decode_div hyz, decode_mod hz, decode_div hz]

/-- Every entry of a transposed buffer is an entry of the source buffer,
provided the source buffer has exactly the `Z * (Y * X)` entries the shape
announces (so the `getD` accesses never fall back to the default). -/
theorem mem_of_mem_transpose3 {Z Y X : Nat} {d : List Int}
    (hd : d.length = Z * (Y * X)) {v : Int}
    (hv : v ∈ transpose3 Z Y X d) : v ∈ d := by
  rw [transpose3, List.mem_ofFn] at hv
  obtain ⟨p, hp⟩ := hv
  have hplt : (p : Nat) < X * (Y * Z) := p.isLt
  have hYZ : 0 < Y * Z :=
    pos_right_of_mul_pos (Nat.lt_of_le_of_lt (Nat.zero_le _) hplt)
  have hZ : 0 < Z := pos_right_of_mul_pos hYZ
  have hrlt : (p : Nat) % (Y * Z) < Y * Z := Nat.mod_lt _ hYZ
  have hzlt : (p : Nat) % (Y * Z) % Z < Z := Nat.mod_lt _ hZ
  have hylt : (p : Nat) % (Y * Z) / Z < Y := by
    rw [Nat.div_lt_iff_lt_mul hZ]; exact hrlt
  have hxlt : (p : Nat) / (Y * Z) < X := by
    rw [Nat.div_lt_iff_lt_mul hYZ]; exact hplt
  set r := (p : Nat) % (Y * Z) with hr
  have hidx : r % Z * (Y * X) + (r / Z * X + (p : Nat) / (Y * Z))
      < Z * (Y * X) := mixed_lt hzlt (mixed_lt hylt hxlt)
  have hlt : r % Z * (Y * X) + (r / Z * X + (p : Nat) / (Y * Z)) < d.length := by
    rw [hd]; exact hidx
  rw [← hp]
  simp only
  rw [List.getD_eq_getElem _ _ hlt]
  exact List.getElem_mem hlt

/-- `np.transpose` applied twice over a 3D shape is the identity on a
buffer of the right length. -/
theorem transpose3_transpose3 (Z Y X : Nat) (d : List Int)
    (hd : d.length = Z * (Y * X)) :
    transpose3 X Y Z (transpose3 Z Y X d) = d := by
  have hlen1 : (transpose3 X Y Z (transpose3 Z Y X d)).length = d.length := by
    rw [transpose3_length, hd]
  apply List.ext_getElem hlen1
  intro q hq1 hq2
  have hqZYX : q < Z * (Y * X) := by rw [← hd]; exact hq2
  have hYX : 0 < Y * X :=
    pos_right_of_mul_pos (Nat.lt_of_le_of_lt (Nat.zero_le _) hqZYX)
  have hX : 0 < X := pos_right_of_mul_pos hYX
  have ha : q / (Y * X) < Z := by
    rw [Nat.div_lt_iff_lt_mul hYX]; exact hqZYX
  have hrYX : q % (Y * X) < Y * X := Nat.mod_lt _ hYX
  have hb : q % (Y * X) / X < Y := by
    rw [Nat.div_lt_iff_lt_mul hX]; exact hrYX
  have hc : q % (Y * X) % X < X := Nat.mod_lt _ hX
  set a := q / (Y * X)
  set b := q % (Y * X) / X
  set c := q % (Y * X) % X
  have hdecomp : q = a * (Y * X) + (b * X + c) := by
    have h1 : q = Y * X * (q / (Y * X)) + q % (Y * X) :=
      (Nat.div_add_mod q (Y * X)).symm
    have h2 : q % (Y * X) = X * (q % (Y * X) / X) + q % (Y * X) % X :=
      (Nat.div_add_mod (q % (Y * X)) X).symm
    calc q = Y * X * a + q % (Y * X) := h1
    _ = Y * X * a + (X * b + c) := by rw [← h2]
    _ = a * (Y * X) + (b * X + c) := by ring
  have hgd :
      (transpose3 X Y Z (transpose3 Z Y X d)).getD q 0 = d.getD q 0 := by
    calc (transpose3 X Y Z (transpose3 Z Y X d)).getD q 0
        = (transpose3 X Y Z (transpose3 Z Y X d)).getD (a * (Y * X) + (b * X + c)) 0 := by
          rw [← hdecomp]
    _ = (transpose3 Z Y X d).getD (c * (Y * Z) + (b * Z + a)) 0 :=
          transpose3_getD X Y Z _ ha hb hc
    _ = d.getD (a * (Y * X) + (b * X + c)) 0 := transpose3_getD Z Y X d hc hb ha
    _ = d.getD q 0 := by rw [← hdecomp]
  rw [List.getD_eq_getElem _ _ hq1, List.getD_eq_getElem _ _ hq2] at hgd
  exact hgd

/-! ## Filter-pipeline lemmas -/

theorem boolIndex_cons {α : Type} (b : Bool) (bs : List Bool) (x : α)
    (xs : List α) :
    boolIndex (b :: bs) (x :: xs)
      = if b then x :: boolIndex bs xs else boolIndex bs xs := by
  cases b
  · simp [boolIndex]
  · simp [boolIndex]

theorem filtered_labels_cons (a : Int) (as : List Int) :
    filtered_labels (a :: as)
      = if 0 < a then (a - 1) :: filtered_labels as else filtered_labels as := by
  by_cases h : 0 < a
  · simp [filtered_labels, validLabels, boolIndex_cons, h]
  · simp [filtered_labels, validLabels, boolIndex_cons, h]

theorem filtered_features_cons (a : Int) (as : List Int) (b : List ℚ)
    (bs : List (List ℚ)) :
    filtered_features (a :: as) (b :: bs)
      = if 0 < a then b :: filtered_features as bs else filtered_features as bs := by
  by_cases h : 0 < a
  · simp [filtered_features, validLabels, boolIndex_cons, h]
  · simp [filtered_features, validLabels, boolIndex_cons, h]

theorem filtered_labels_eq_spec (labels : List Int) :
    filtered_labels labels = specFilteredLabels labels := by
  induction labels with
  | nil => rfl
  | cons a as ih =>
    rw [filtered_labels_cons]
    by_cases h : 0 < a
    · rw [if_pos h, ih]
      simp [specFilteredLabels, List.filter_cons, h]
    · rw [if_neg h, ih]
      simp [specFilteredLabels, List.filter_cons, h]

theorem filtered_labels_eq_nil {labels : List Int}
    (h : ∀ l ∈ labels, ¬ 0 < l) : filtered_labels labels = [] := by
  induction labels with
  | nil => rfl
  | cons a as ih =>
    rw [filtered_labels_cons, if_neg (h a (List.mem_cons_self a as))]
    exact ih (fun l hl => h l (List.mem_cons_of_mem a hl))

theorem training_pairs_eq (labels : List Int) (features : List (List ℚ))
    (h : labels.length = features.length) :
    (filtered_labels labels).zip (filtered_features labels features)
      = specTrainingPairs labels features := by
  induction labels generalizing features with
  | nil =>
    cases features with
    | nil => rfl
    | cons b bs => simp at h
  | cons a as ih =>
    cases features with
    | nil => simp at h
    | cons b bs =>
      have h2 : as.length = bs.length := by simpa using h
      rw [filtered_labels_cons, filtered_features_cons]
      by_cases hp : 0 < a
      · rw [if_pos hp, if_pos hp, List.zip_cons_cons, ih bs h2]
        simp [specTrainingPairs, List.filter_cons, hp]
      · rw [if_neg hp, if_neg hp, ih bs h2]
        simp [specTrainingPairs, List.filter_cons, hp]

/-! ## Claim C1 -/

/-- C1, counterexample: with labels all zero, `fit_model` does return
`Except.ok none` (a skip, not an error), but the completion callback
`on_model_fit` does NOT leave the previously stored model unchanged: the
unconditional `self.model = task.result()` replaces the prior model
(`some trivialModel`) with `none`. -/
theorem c1_counterexample :
    fit_model [0, 0, 0] [[0], [0], [0]] "Random Forest" constTrainRF constTrainXGB
        = Except.ok none
    ∧ (on_model_fit (some trivialModel) none true).1 = none
    ∧ ¬ ((on_model_fit (some trivialModel) none true).1 = some trivialModel) := by
  refine ⟨rfl, rfl, ?_⟩
  simp [on_model_fit]

/-- C1, amended: for every labels array in which no voxel has label > 0,
`fit_model` returns `Except.ok none` (a skip, never an exception), and the
fit-completion callback then stores that `None` into the model handle —
clearing the previous model — and submits no prediction. -/
theorem c1_skip_clears_model (labels : List Int) (features : List (List ℚ))
    (model_type : String)
    (fitRF : List (List ℚ) → List Int → (Int → ℚ) → Model)
    (fitXGB : List (List ℚ) → List Int → List ℚ → Model)
    (prev : Option Model) (live_prediction : Bool)
    (h : ∀ l ∈ labels, ¬ 0 < l) :
    fit_model labels features model_type fitRF fitXGB = Except.ok none
    ∧ on_model_fit prev none live_prediction = (none, false) := by
  constructor
  · have hfl : filtered_labels labels = [] := filtered_labels_eq_nil h
    simp [fit_model, hfl]
  · simp [on_model_fit]

/-- C1, witness for the amended theorem at a concrete input. -/
theorem c1_skip_clears_model_witness :
    fit_model [-2, 0] [[1], [2]] "XGBoost" constTrainRF constTrainXGB
        = Except.ok none
    ∧ on_model_fit (some trivialModel) none false = (none, false) :=
  c1_skip_clears_model [-2, 0] [[1], [2]] "XGBoost" constTrainRF constTrainXGB
    (some trivialModel) false (by decide)

/-! ## Claim C3 -/

/-- C3: the training set handed to the classifier consists of exactly the
voxels with label > 0 (in order), each with its label shifted by -1; no
voxel with label 0 (or below) ever enters training, and every training
label is the original label minus one (hence nonnegative). -/
theorem c3_training_set (labels : List Int) (features : List (List ℚ))
    (h : labels.length = features.length) :
    (filtered_labels labels).zip (filtered_features labels features)
        = specTrainingPairs labels features
    ∧ filtered_labels labels = specFilteredLabels labels
    ∧ ∀ l ∈ filtered_labels labels, 0 ≤ l := by
  refine ⟨training_pairs_eq labels features h, filtered_labels_eq_spec labels, ?_⟩
  intro l hl
  rw [filtered_labels_eq_spec] at hl
  unfold specFilteredLabels at hl
  rw [List.mem_map] at hl
  obtain ⟨x, hx, rfl⟩ := hl
  rw [List.mem_filter] at hx
  have : 0 < x := of_decide_eq_true hx.2
  omega

/-- C3, witness at a concrete input. -/
theorem c3_training_set_witness :
    ([(0 : Int), 1, 2].length = [[(5 : ℚ)], [6], [7]].length)
    ∧ (filtered_labels [0, 1, 2]).zip
        (filtered_features [0, 1, 2] [[(5 : ℚ)], [6], [7]])
        = specTrainingPairs [0, 1, 2] [[(5 : ℚ)], [6], [7]]
    ∧ filtered_labels [0, 1, 2] = specFilteredLabels [0, 1, 2]
    ∧ (0 : Int) ≤ 0 :=
  ⟨by decide,
   (c3_training_set [0, 1, 2] [[(5 : ℚ)], [6], [7]] (by decide)).1,
   (c3_training_set [0, 1, 2] [[(5 : ℚ)], [6], [7]] (by decide)).2.1,
   (c3_training_set [0, 1, 2] [[(5 : ℚ)], [6], [7]] (by decide)).2.2 0 (by decide)⟩

/-! ## Claim C5 -/

/-- C5: the source's emptiness guard is dead code.  In Python,
`training_labels.shape == 0` compares a tuple with an integer and is
always `False`, so `np.any(...)` is `False` even for an empty labels
array (shape `(0,)`): with live-fit enabled the handler still sets the
status text to "Fitting model ..." and submits a fit job, instead of the
no-op the claim (and the guard's own log message) describe.  Only the
live-fit toggle actually gates submission. -/
theorem c5_dead_empty_guard :
    npAnyScalar (pyTupleEqInt [0] 0) = false
    ∧ on_data_change [0] true = ⟨some "Fitting model ...", true⟩
    ∧ (on_data_change [0] true).fitSubmitted = true
    ∧ on_data_change [0] false = ⟨none, false⟩ :=
  ⟨rfl, rfl, rfl, rfl⟩

/-! ## Claim C9 -/

/-- C9: `predict` is deterministic — with the same model, equal feature
arrays yield element-wise identical prediction arrays (the embedded
pipeline is a pure function of the model and the features). -/
theorem c9_predict_deterministic (m : Model) (f g : Arr4) (h : f = g) :
    predict m f = predict m g := by
  rw [h]

/-- C9, witness at a concrete input. -/
theorem c9_predict_deterministic_witness :
    fShape112 = fShape112
    ∧ predict trivialModel fShape112 = predict trivialModel fShape112 :=
  ⟨rfl, c9_predict_deterministic trivialModel fShape112 fShape112 rfl⟩

/-! ## Claim C2 -/

/-- The number of rows `reshape(-1, F)` produces for a well-formed
feature array. -/
theorem predictedFlat_length (m : Model) (f : Arr4)
    (hwf : f.data.length = f.s1 * (f.s2 * f.s3) * f.F) (hF : 0 < f.F) :
    (predictedFlat m f).length = f.s1 * (f.s2 * f.s3) := by
  unfold predictedFlat chunkRows
  rw [List.length_map, List.length_map, List.length_range, hwf,
    Nat.mul_div_cancel _ hF]

/-- C2, counterexample: painting only labels `{1, 5}` yields the fitted
class set `{0, 4}`; a model fit on it can answer class 4, and `predict`
then emits the label 5, which exceeds `K = 2` (the number of classes the
model was fit on).  So the output is not always within `[1, K]`. -/
theorem c2_counterexample :
    uniqueSorted (filtered_labels [1, 5]) = gapModel.classes
    ∧ (5 : Int) ∈ (predict gapModel fOneVoxel).data
    ∧ gapModel.classes.length = 2
    ∧ ¬ ((5 : Int) ≤ (gapModel.classes.length : Int)) := by
  refine ⟨by decide, by decide, rfl, by decide⟩

/-- C2, amended: every entry of `predict`'s output equals `c + 1` for some
class `c` the model was fit on; since the fitted classes produced by the
label `- 1` shift are nonnegative, every entry is at least 1 and the value
0 never occurs.  The range is `[1, K]` exactly when the fitted classes are
`{0, ..., K-1}`, which fails for non-contiguously painted labels. -/
theorem c2_output_values (m : Model) (f : Arr4)
    (hwf : f.data.length = f.s1 * (f.s2 * f.s3) * f.F) (hF : 0 < f.F)
    (hnn : ∀ c ∈ m.classes, 0 ≤ c) :
    ∀ v ∈ (predict m f).data, 1 ≤ v ∧ v ∈ classesPlusOne m := by
  intro v hv
  have hflat := predictedFlat_length m f hwf hF
  have hv2 : v ∈ predictedFlat m f := by
    have hv3 : v ∈ transpose3 f.s1 f.s2 f.s3 (predictedFlat m f) := hv
    exact mem_of_mem_transpose3 hflat hv3
  rw [predictedFlat, List.mem_map] at hv2
  obtain ⟨r, _, hr⟩ := hv2
  have hc := m.pred_mem r
  constructor
  · have := hnn _ hc
    omega
  · rw [classesPlusOne, List.mem_map]
    exact ⟨m.predFn r, hc, hr⟩

/-- C2, witness for the amended theorem at a concrete input. -/
theorem c2_output_values_witness :
    fOneVoxel.data.length = fOneVoxel.s1 * (fOneVoxel.s2 * fOneVoxel.s3) * fOneVoxel.F
    ∧ 0 < fOneVoxel.F
    ∧ gapModel.classes = [0, 4]
    ∧ (1 ≤ (5 : Int) ∧ (5 : Int) ∈ classesPlusOne gapModel) :=
  ⟨by decide, by decide, rfl,
   c2_output_values gapModel fOneVoxel (by decide) (by decide) (by decide) 5 (by decide)⟩

/-! ## Claim C4 -/

/-- C4, counterexample: for a feature array of spatial shape `(1, 2, 3)`,
the array `predict` returns has first axis 3, not 1 — the trailing
`np.transpose` reverses the spatial shape, so the return value does NOT
match the Volume's spatial shape. -/
theorem c4_counterexample :
    (predict trivialModel fShape123).s1 = 3
    ∧ fShape123.s1 = 1
    ∧ ¬ ((predict trivialModel fShape123).s1 = fShape123.s1) := by
  refine ⟨rfl, rfl, by decide⟩

/-- C4, amended: `predict` returns the REVERSED spatial shape
`(X, Y, Z)` (with the matching buffer size); the Volume's spatial shape
`(Z, Y, X)` is only restored by the completion callback's second
transpose. -/
theorem c4_predict_shape (m : Model) (f : Arr4) :
    (predict m f).s1 = f.s3
    ∧ (predict m f).s2 = f.s2
    ∧ (predict m f).s3 = f.s1
    ∧ (predict m f).data.length = f.s3 * (f.s2 * f.s1)
    ∧ (on_prediction_stored (predict m f)).s1 = f.s1
    ∧ (on_prediction_stored (predict m f)).s2 = f.s2
    ∧ (on_prediction_stored (predict m f)).s3 = f.s3 :=
  ⟨rfl, rfl, rfl, transpose3_length f.s1 f.s2 f.s3 (predictedFlat m f),
   rfl, rfl, rfl⟩

/-! ## Claim C10 -/

/-- C10: the two transposes cancel — the array finally stored by the
prediction-completion callback is exactly the flat per-voxel class indices
plus one, reshaped to the feature array's spatial shape in its original
axis order. -/
theorem c10_transposes_cancel (m : Model) (f : Arr4)
    (hwf : f.data.length = f.s1 * (f.s2 * f.s3) * f.F) (hF : 0 < f.F) :
    on_prediction_stored (predict m f)
      = ⟨f.s1, f.s2, f.s3, predictedFlat m f⟩ := by
  have hflat := predictedFlat_length m f hwf hF
  unfold on_prediction_stored predict transposeArr
  simp only
  rw [transpose3_transpose3 f.s1 f.s2 f.s3 (predictedFlat m f) hflat]

/-- C10, witness at a concrete input. -/
theorem c10_transposes_cancel_witness :
    fShape213.data.length = fShape213.s1 * (fShape213.s2 * fShape213.s3) * fShape213.F
    ∧ 0 < fShape213.F
    ∧ on_prediction_stored (predict trivialModel fShape213)
        = ⟨fShape213.s1, fShape213.s2, fShape213.s3, predictedFlat trivialModel fShape213⟩ :=
  ⟨by decide, by decide,
   c10_transposes_cancel trivialModel fShape213 (by decide) (by decide)⟩

/-! ## Claim C6 -/

theorem mem_uniqueSorted {y : List Int} {c : Int} :
    c ∈ uniqueSorted y ↔ c ∈ y := by
  unfold uniqueSorted
  rw [(List.perm_insertionSort _ _).mem_iff, List.mem_dedup]

/-- The `bincount` of the label-encoded samples at the encoded index of a
class equals the plain count of that class among the samples. -/
theorem count_encode {u y : List Int} {c : Int}
    (hc : c ∈ u) (hy : ∀ v ∈ y, v ∈ u) :
    (y.map (fun v => u.indexOf v)).count (u.indexOf c) = y.count c := by
  induction y with
  | nil => rfl
  | cons a as ih =>
    have ha : a ∈ u := hy a (List.mem_cons_self a as)
    have ih2 := ih (fun v hv => hy v (List.mem_cons_of_mem a hv))
    rw [List.map_cons, List.count_cons, List.count_cons, ih2]
    congr 1
    by_cases he : a = c
    · subst he; simp
    · have hne : u.indexOf a ≠ u.indexOf c :=
        fun hix => he ((List.indexOf_inj ha hc).mp hix)
      simp [he, hne]

/-- The weight the source computes for a fitted class `c` is
`N_total / (num_classes * count(c))`. -/
theorem weightDict_eq (y : List Int) {c : Int} (hc : c ∈ uniqueSorted y) :
    weightDict y c
      = (y.length : ℚ) / (((uniqueSorted y).length : ℚ) * ((y.count c : Nat) : ℚ)) := by
  simp only [weightDict]
  rw [count_encode hc (fun v hv => mem_uniqueSorted.mpr hv)]

theorem sum_map_constQ {α : Type} (l : List α) (a : ℚ) :
    (l.map (fun _ => a)).sum = (l.length : ℚ) * a := by
  induction l with
  | nil => simp
  | cons x xs ih =>
    rw [List.map_cons, List.sum_cons, ih, List.length_cons]
    push_cast
    ring

/-- C6, counterexample: for the spec's example labels `[1,1,2,2,2,3]`
(classes `[0,0,1,1,1,2]` after the `- 1` shift) the balanced weights are
`weight(0) = 6/(3*2) = 1`, `weight(1) = 6/(3*3) = 2/3`,
`weight(2) = 6/(3*1) = 2` — not `weight(0) = 2, weight(1) = 1` as
claimed. -/
theorem c6_counterexample :
    filtered_labels [1, 1, 2, 2, 2, 3] = [0, 0, 1, 1, 1, 2]
    ∧ weightDict [0, 0, 1, 1, 1, 2] 0 = 1
    ∧ weightDict [0, 0, 1, 1, 1, 2] 1 = 2 / 3
    ∧ weightDict [0, 0, 1, 1, 1, 2] 2 = 2
    ∧ ¬ (weightDict [0, 0, 1, 1, 1, 2] 0 = 2 ∧ weightDict [0, 0, 1, 1, 1, 2] 1 = 1) := by
  have hu : uniqueSorted [0, 0, 1, 1, 1, 2] = [0, 1, 2] := by decide
  have hcnt0 : (([0, 0, 1, 1, 1, 2] : List Int).map
      (fun v => ([0, 1, 2] : List Int).indexOf v)).count
      (([0, 1, 2] : List Int).indexOf 0) = 2 := by decide
  have hcnt1 : (([0, 0, 1, 1, 1, 2] : List Int).map
      (fun v => ([0, 1, 2] : List Int).indexOf v)).count
      (([0, 1, 2] : List Int).indexOf 1) = 3 := by decide
  have hcnt2 : (([0, 0, 1, 1, 1, 2] : List Int).map
      (fun v => ([0, 1, 2] : List Int).indexOf v)).count
      (([0, 1, 2] : List Int).indexOf 2) = 1 := by decide
  have hw0 : weightDict [0, 0, 1, 1, 1, 2] 0 = 1 := by
    simp only [weightDict, hu, hcnt0]
    norm_num
  have hw1 : weightDict [0, 0, 1, 1, 1, 2] 1 = 2 / 3 := by
    simp only [weightDict, hu, hcnt1]
    norm_num
  have hw2 : weightDict [0, 0, 1, 1, 1, 2] 2 = 2 := by
    simp only [weightDict, hu, hcnt2]
    norm_num
  refine ⟨by decide, hw0, hw1, hw2, ?_⟩
  intro hcl
  rw [hw0] at hcl
  exact absurd hcl.1 (by norm_num)

/-- C6, amended: for every non-empty training label list, the weight the
source computes for each fitted class `c` equals
`N_total / (num_classes * count(c))`, and these weights normalize
consistently: the sum over the fitted classes of `weight(c) * count(c)`
equals `N_total`.  (The spec's concrete values for `[1,1,2,2,2,3]` are
wrong; see the counterexample.) -/
theorem c6_balanced_weights (y : List Int) (hy : y ≠ []) :
    (∀ c ∈ uniqueSorted y,
      weightDict y c
        = (y.length : ℚ) / (((uniqueSorted y).length : ℚ) * ((y.count c : Nat) : ℚ)))
    ∧ balancedTotal y = (y.length : ℚ) := by
  have hKpos : 0 < (uniqueSorted y).length := by
    obtain ⟨a, ha⟩ := List.exists_mem_of_ne_nil y hy
    exact List.length_pos.mpr (List.ne_nil_of_mem (mem_uniqueSorted.mpr ha))
  have hKne : ((uniqueSorted y).length : ℚ) ≠ 0 := by
    exact_mod_cast Nat.pos_iff_ne_zero.mp hKpos
  refine ⟨fun c hc => weightDict_eq y hc, ?_⟩
  have hconst : ∀ c ∈ uniqueSorted y,
      weightDict y c * ((y.count c : Nat) : ℚ)
        = (y.length : ℚ) / ((uniqueSorted y).length : ℚ) := by
    intro c hc
    have hcnt : ((y.count c : Nat) : ℚ) ≠ 0 := by
      have : 0 < y.count c := List.count_pos_iff.mpr (mem_uniqueSorted.mp hc)
      exact_mod_cast Nat.pos_iff_ne_zero.mp this
    rw [weightDict_eq y hc, div_mul_eq_mul_div,
      mul_comm ((uniqueSorted y).length : ℚ) ((y.count c : Nat) : ℚ),
      mul_comm ((y.length : ℚ)) ((y.count c : Nat) : ℚ),
      mul_div_mul_left _ _ hcnt]
  rw [balancedTotal, List.map_congr_left hconst, sum_map_constQ,
    mul_div_cancel₀ _ hKne]

/-- C6, witness for the amended theorem at the spec's own example. -/
theorem c6_balanced_weights_witness :
    (filtered_labels [1, 1, 2, 2, 2, 3] ≠ [])
    ∧ weightDict (filtered_labels [1, 1, 2, 2, 2, 3]) 0
        = ((filtered_labels [1, 1, 2, 2, 2, 3]).length : ℚ) /
          (((uniqueSorted (filtered_labels [1, 1, 2, 2, 2, 3])).length : ℚ) *
            (((filtered_labels [1, 1, 2, 2, 2, 3]).count 0 : Nat) : ℚ))
    ∧ balancedTotal (filtered_labels [1, 1, 2, 2, 2, 3])
        = ((filtered_labels [1, 1, 2, 2, 2, 3]).length : ℚ) :=
  ⟨by decide,
   (c6_balanced_weights (filtered_labels [1, 1, 2, 2, 2, 3]) (by decide)).1 0 (by decide),
   (c6_balanced_weights (filtered_labels [1, 1, 2, 2, 2, 3]) (by decide)).2⟩

/-! ## Claim C7 -/

theorem zipWith_map_append {α : Type} (l : List α) (f g : α → List ℚ) :
    List.zipWith (fun r s => r ++ s) (l.map f) (l.map g)
      = l.map (fun a => f a ++ g a) := by
  induction l with
  | nil => rfl
  | cons x xs ih => simp [ih]

theorem length_flatMap_const {α β : Type} (l : List α) (f : α → List β)
    (n : Nat) (h : ∀ a ∈ l, (f a).length = n) :
    (l.flatMap f).length = l.length * n := by
  induction l with
  | nil => simp
  | cons x xs ih =>
    rw [List.flatMap_cons, List.length_append, h x (List.mem_cons_self x xs),
      ih (fun a ha => h a (List.mem_cons_of_mem x ha)), List.length_cons]
    ring

theorem length_rangeSlice (s : SliceRange) :
    (rangeSlice s).length = s.hi - s.lo := by
  simp [rangeSlice]

/-- The number of voxels a mask selects is the product of its per-axis
extents. -/
theorem length_maskVoxels (m : Mask3) :
    (maskVoxels m).length
      = (m.a1.hi - m.a1.lo) * ((m.a2.hi - m.a2.lo) * (m.a3.hi - m.a3.lo)) := by
  unfold maskVoxels
  have houter : ∀ z ∈ rangeSlice m.a1,
      ((rangeSlice m.a2).flatMap
        (fun y => (rangeSlice m.a3).map (fun x => (z, y, x)))).length
        = (m.a2.hi - m.a2.lo) * (m.a3.hi - m.a3.lo) := by
    intro z _
    have hinner : ∀ y ∈ rangeSlice m.a2,
        ((rangeSlice m.a3).map (fun x => (z, y, x))).length = m.a3.hi - m.a3.lo := by
      intro y _
      rw [List.length_map, length_rangeSlice]
    rw [length_flatMap_const _ _ _ hinner, length_rangeSlice]
  rw [length_flatMap_const _ _ _ houter, length_rangeSlice]

/-- C7: `_get_features` fails with its explicit error exactly when no
feature set is selected; otherwise it returns one row per masked voxel
(`voxels_in_mask` of them, the product of the mask extents), each row
being the concatenation of the selected feature vectors, of width equal to
the total selected feature depth. -/
theorem c7_feature_fetch (u1 u2 : Bool) (sk tt : FeatSet) (m : Mask3) :
    (get_features u1 u2 sk tt m
        = Except.error "No features selected for computation."
      ↔ u1 = false ∧ u2 = false)
    ∧ ((maskVoxels m).length
        = (m.a1.hi - m.a1.lo) * ((m.a2.hi - m.a2.lo) * (m.a3.hi - m.a3.lo)))
    ∧ ∀ rows, get_features u1 u2 sk tt m = Except.ok rows →
        rows.length = (maskVoxels m).length
        ∧ ∀ r ∈ rows, r.length
            = (if u1 then sk.F else 0) + (if u2 then tt.F else 0) := by
  refine ⟨?_, length_maskVoxels m, ?_⟩
  · cases u1 <;> cases u2
    · exact ⟨fun _ => ⟨rfl, rfl⟩, fun _ => rfl⟩
    · constructor
      · intro h
        exact absurd h (by simp [get_features])
      · rintro ⟨_, h2⟩
        exact absurd h2 (by simp)
    · constructor
      · intro h
        exact absurd h (by simp [get_features])
      · rintro ⟨h1, _⟩
        exact absurd h1 (by simp)
    · constructor
      · intro h
        exact absurd h (by simp [get_features])
      · rintro ⟨h1, _⟩
        exact absurd h1 (by simp)
  · intro rows hrows
    cases u1 <;> cases u2
    · exact absurd hrows (by simp [get_features])
    · have hok : get_features false true sk tt m = Except.ok (flatRows tt m) := rfl
      rw [hok] at hrows
      have hr : rows = flatRows tt m := by
        injection hrows.symm
      subst hr
      constructor
      · rw [flatRows, List.length_map]
      · intro r hr
        rw [flatRows, List.mem_map] at hr
        obtain ⟨v, _, rfl⟩ := hr
        rw [tt.hlen]
        simp
    · have hok : get_features true false sk tt m = Except.ok (flatRows sk m) := rfl
      rw [hok] at hrows
      have hr : rows = flatRows sk m := by
        injection hrows.symm
      subst hr
      constructor
      · rw [flatRows, List.length_map]
      · intro r hr
        rw [flatRows, List.mem_map] at hr
        obtain ⟨v, _, rfl⟩ := hr
        rw [sk.hlen]
        simp
    · have hok : get_features true true sk tt m
          = Except.ok (List.zipWith (fun r s => r ++ s)
              (flatRows sk m) (flatRows tt m)) := rfl
      rw [hok] at hrows
      have hr : rows = List.zipWith (fun r s => r ++ s)
          (flatRows sk m) (flatRows tt m) := by
        injection hrows.symm
      subst hr
      rw [flatRows, flatRows, zipWith_map_append]
      constructor
      · rw [List.length_map]
      · intro r hr
        rw [List.mem_map] at hr
        obtain ⟨v, _, rfl⟩ := hr
        rw [List.length_append, sk.hlen, tt.hlen]
        simp

/-- C7, witness: the spec's scenario — two feature sets of depth 8 and 32
over the full `(4, 10, 10)` mask give 400 voxels; on a concrete mask the
fetch succeeds and each returned row has width `8 + 32 = 40`. -/
theorem c7_feature_fetch_witness :
    (maskVoxels maskEx).length = 400
    ∧ get_features true true skEx ttEx maskSmall
        = Except.ok (concatAxis1 [flatRows skEx maskSmall, flatRows ttEx maskSmall])
    ∧ (concatAxis1 [flatRows skEx maskSmall, flatRows ttEx maskSmall]).length
        = (maskVoxels maskSmall).length
    ∧ (skEx.vec 0 0 0 ++ ttEx.vec 0 0 0).length
        = (if true then skEx.F else 0) + (if true then ttEx.F else 0) :=
  ⟨by set_option maxRecDepth 4000 in decide, rfl,
   ((c7_feature_fetch true true skEx ttEx maskSmall).2.2
      (concatAxis1 [flatRows skEx maskSmall, flatRows ttEx maskSmall]) rfl).1,
   ((c7_feature_fetch true true skEx ttEx maskSmall).2.2
      (concatAxis1 [flatRows skEx maskSmall, flatRows ttEx maskSmall]) rfl).2
      (skEx.vec 0 0 0 ++ ttEx.vec 0 0 0) (by decide)⟩

/-! ## Claim C8 -/

theorem getD_set_self (l : List Int) (n : Nat) (a d : Int) :
    (l.set n a).getD n d = if n < l.length then a else l.getD n d := by
  rw [List.getD_eq_getElem?_getD, List.getElem?_set]
  by_cases h : n < l.length
  · simp [h]
  · simp only [if_pos rfl, if_neg h]
    rw [List.getD_eq_getElem?_getD, List.getElem?_eq_none (Nat.le_of_not_lt h)]
    simp

theorem getD_set_ne (l : List Int) {n i : Nat} (h : n ≠ i) (a d : Int) :
    (l.set n a).getD i d = l.getD i d := by
  rw [List.getD_eq_getElem?_getD, List.getElem?_set_ne h,
    ← List.getD_eq_getElem?_getD]

theorem paintLoop_cons (p : List Int) (j : Nat) (rest : List Nat) :
    paintLoop p (j :: rest) = paintLoop (p.set j 1) rest := rfl

theorem paintLoop_length (idxs : List Nat) (p : List Int) :
    (paintLoop p idxs).length = p.length := by
  induction idxs generalizing p with
  | nil => rfl
  | cons j rest ih => rw [paintLoop_cons, ih, List.length_set]

/-- The write loop sets exactly the listed (in-bounds) indices to 1 and
leaves every other position unchanged. -/
theorem paintLoop_getD (idxs : List Nat) (p : List Int) (i : Nat) :
    (paintLoop p idxs).getD i 0
      = if i ∈ idxs ∧ i < p.length then 1 else p.getD i 0 := by
  induction idxs generalizing p with
  | nil => simp [paintLoop]
  | cons j rest ih =>
    rw [paintLoop_cons, ih, List.length_set]
    by_cases h1 : i ∈ rest ∧ i < p.length
    · rw [if_pos h1, if_pos ⟨List.mem_cons_of_mem j h1.1, h1.2⟩]
    · rw [if_neg h1]
      by_cases h2 : i = j
      · subst h2
        rw [getD_set_self]
        by_cases h3 : i < p.length
        · rw [if_pos h3, if_pos ⟨List.mem_cons_self i rest, h3⟩]
        · rw [if_neg h3, if_neg (fun hc => h3 hc.2)]
      · rw [getD_set_ne p (fun he => h2 he.symm) 1 0]
        by_cases h4 : i ∈ j :: rest ∧ i < p.length
        · exfalso
          exact h1 ⟨(List.mem_cons.mp h4.1).resolve_left h2, h4.2⟩
        · rw [if_neg h4]

theorem mem_whereIdx {mask : List Bool} {i : Nat} :
    i ∈ whereIdx mask ↔ i < mask.length ∧ mask.getD i false = true := by
  unfold whereIdx
  rw [List.mem_filter, List.mem_range]

theorem getD_background_mask {distances : List ℚ} {t : ℚ} {i : Nat}
    (h : i < distances.length) :
    (background_mask distances t).getD i false
      = decide (distances.getD i 0 < t) := by
  unfold background_mask
  rw [List.getD_eq_getElem _ _ (by simpa using h), List.getD_eq_getElem _ _ h,
    List.getElem_map]

/-- C8: the background-estimation write loop stores label 1 at exactly the
voxels whose distance is strictly below the 1st-percentile threshold
`np.percentile(distances, 1)`, writes no other value, and leaves every
other voxel of the painting buffer unchanged (the buffer keeps its
length). -/
theorem c8_background_writes (distances : List ℚ) (painting : List Int)
    (h : distances.length = painting.length) (i : Nat) :
    (paint_background distances painting).length = painting.length
    ∧ (paint_background distances painting).getD i 0
        = if i < painting.length ∧ distances.getD i 0 < npPercentile distances 1
          then 1 else painting.getD i 0 := by
  constructor
  · exact paintLoop_length _ _
  · have hmlen : (background_mask distances (npPercentile distances 1)).length
        = painting.length := by
      rw [background_mask, List.length_map, h]
    have hiff :
        (i ∈ whereIdx (background_mask distances (npPercentile distances 1))
            ∧ i < painting.length)
          ↔ (i < painting.length
            ∧ distances.getD i 0 < npPercentile distances 1) := by
      constructor
      · rintro ⟨hmem, hlt⟩
        obtain ⟨_, hmask⟩ := mem_whereIdx.mp hmem
        rw [getD_background_mask (by rw [h]; exact hlt)] at hmask
        exact ⟨hlt, of_decide_eq_true hmask⟩
      · rintro ⟨hlt, hd⟩
        refine ⟨mem_whereIdx.mpr ⟨?_, ?_⟩, hlt⟩
        · rw [hmlen]; exact hlt
        · rw [getD_background_mask (by rw [h]; exact hlt)]
          exact decide_eq_true hd
    rw [paint_background, paintLoop_getD]
    exact if_congr hiff rfl rfl

/-- C8, witness at a concrete input. -/
theorem c8_background_writes_witness :
    ([(0 : ℚ), 10, 20, 30].length = [(5 : Int), 5, 5, 5].length)
    ∧ (paint_background [0, 10, 20, 30] [5, 5, 5, 5]).length
        = [(5 : Int), 5, 5, 5].length
    ∧ (paint_background [0, 10, 20, 30] [5, 5, 5, 5]).getD 0 0
        = if 0 < [(5 : Int), 5, 5, 5].length
            ∧ [(0 : ℚ), 10, 20, 30].getD 0 0 < npPercentile [0, 10, 20, 30] 1
          then 1 else [(5 : Int), 5, 5, 5].getD 0 0 :=
  ⟨by decide,
   (c8_background_writes [0, 10, 20, 30] [5, 5, 5, 5] (by decide) 0).1,
   (c8_background_writes [0, 10, 20, 30] [5, 5, 5, 5] (by decide) 0).2⟩

end CryoCanvas
